import Mathlib

/-
Verification of the MRT-MQTT control plane (admission control, WCRT analysis,
delay-aware routing, flow-registration orchestration) against its specification.

The Python sources embedded here are:
  - schedulability/analysis.py  (SchedulabilityUtils, HolisticApproach,
    TrajectoryApproach, AdmissionControl)
  - sdn_controller/routing.py   (RoutingEngine)
  - sdn_controller/ryu_mrt_app.py (register_rt_flow, handle_new_subscriber)

The data model (common/rt_attributes.py, common/of_db.py) is not part of the
available sources; those definitions are modelled from the specification and
are marked as such.  Numeric values are modelled as rationals; Python floats
are used by the source only for ordinary field arithmetic on small decimal
constants, all of which are exactly representable.
-/

namespace MRT

/-- Modelled from the spec: a directed link record (common/rt_attributes.py is
not among the sources).  Attributes per spec section 3: delays in ms, jitter,
bandwidth capacity and usage in Mbps. -/
structure Link where
  src : String
  dst : String
  port_out : Nat := 0
  prop_delay : ℚ := 0
  switch_delay : ℚ := 0
  proc_delay : ℚ := 0
  queuing_delay : ℚ := 0
  jitter : ℚ := 0
  bw_capacity : ℚ := 0
  bw_used : ℚ := 0
deriving DecidableEq

/-- Modelled from the spec: transmission delay for payload p is
p_bits / (bw_capacity * 10^6) (common/rt_attributes.py is not among the
sources).  In Python a zero capacity would raise ZeroDivisionError; here
division by zero yields 0, and theorems that depend on this method carry a
positive-capacity hypothesis. -/
def Link.get_transmission_delay (l : Link) (p_bits : ℚ) : ℚ :=
  p_bits / (l.bw_capacity * 1000000)

/-- Modelled from the spec: the RTAttributes flow descriptor
(common/rt_attributes.py is not among the sources).  Field defaults follow the
constructor usage in the sources: a freshly parsed descriptor carries the
timing fields only, with empty endpoint lists and no committed route. -/
structure RTAttributes where
  ft_i : String
  qi : Nat := 0
  ci : ℚ := 0
  pi : Int := 0
  ti : ℚ := 0
  di : ℚ := 0
  bwi : ℚ := 0
  src_ip : String := ""
  dst_ips : List String := []
  broker_ips : List String := []
  route_links : List Link := []
  multicast_group_id : Nat := 0
  processing_delay : ℚ := 0
  measured_jitter : ℚ := 0
  num_hops : Nat := 0
deriving DecidableEq

/-- schedulability/analysis.py, inside get_interfering_flows_on_link: a flow
traverses the given link when some of its route links has the same src and dst
dpid. -/
def sharesLink (g : RTAttributes) (link : Link) : Bool :=
  g.route_links.any (fun l => l.src == link.src && l.dst == link.dst)

/-- schedulability/analysis.py, SchedulabilityUtils.get_interfering_flows_on_link:
flows other than the subject that share the link and have priority at least the
subject's. -/
def get_interfering_flows_on_link (link : Link) (subject : RTAttributes)
    (all_flows : List RTAttributes) : List RTAttributes :=
  all_flows.filter (fun g =>
    g.ft_i != subject.ft_i && sharesLink g link && decide (subject.pi ≤ g.pi))

namespace TrajectoryApproach

/-- analysis.py, TrajectoryApproach._compute_path_wcrt: hardware delay of the
segment plus ci plus per-link interference with window di; 0 for an empty
segment. -/
def compute_path_wcrt (flow : RTAttributes) (all_flows : List RTAttributes)
    (links : List Link) : ℚ :=
  if links = [] then 0
  else
    let hw_delay := (links.map (fun l => l.prop_delay + l.switch_delay + l.proc_delay)).sum
    hw_delay + flow.ci +
      (links.map (fun link =>
        ((get_interfering_flows_on_link link flow all_flows).map
          (fun g => ((⌈flow.di / g.ti⌉ : ℤ) : ℚ) * g.ci)).sum)).sum

/-- Nodes of the networkx DiGraph built from a link list, in first-appearance
order (networkx stores nodes in insertion order of add_edge). -/
def digraphNodes (links : List Link) : List String :=
  (links.flatMap (fun l => [l.src, l.dst])).foldl
    (fun acc x => if x ∈ acc then acc else acc ++ [x]) []

/-- Edge attribute lookup in the DiGraph: a later add_edge on the same (u, v)
pair overwrites the stored link object, so the last matching link wins. -/
def digraphEdge (links : List Link) (u v : String) : Option Link :=
  (links.filter (fun l => l.src == u && l.dst == v)).getLast?

/-- Successors of a node in the DiGraph, in first-appearance order. -/
def digraphSuccs (links : List Link) (u : String) : List String :=
  ((links.filter (fun l => l.src == u)).map (fun l => l.dst)).foldl
    (fun acc x => if x ∈ acc then acc else acc ++ [x]) []

/-- Breadth-first search: the frontier holds reversed paths; a path ending at
dst is returned (reversed back) as soon as its layer is reached, so the result
has minimal hop count, matching networkx shortest_path without weights. -/
def bfsAux (links : List Link) (dst : String) :
    Nat → List (List String) → List String → Option (List String)
  | 0, _, _ => none
  | n + 1, frontier, visited =>
    match frontier.find? (fun p => p.head? == some dst) with
    | some p => some p.reverse
    | none =>
      let next := frontier.flatMap (fun p =>
        match p.head? with
        | some u => ((digraphSuccs links u).filter (fun v => !(visited.contains v))).map
            (fun v => v :: p)
        | none => [])
      let visited2 := (next.map (fun p => p.head?)).reduceOption.foldl
        (fun acc x => if x ∈ acc then acc else acc ++ [x]) visited
      if next = [] then none
      else bfsAux links dst n next visited2

/-- nx.shortest_path(G, src, dst) on the DiGraph of the route links: raises
(here: none) when src or dst is not a node, otherwise a minimal-hop path. -/
def taShortestPath (links : List Link) (src dst : String) : Option (List String) :=
  if src ∈ digraphNodes links ∧ dst ∈ digraphNodes links then
    bfsAux links dst ((digraphNodes links).length + 1) [[src]] [src]
  else none

/-- analysis.py: conversion of a node path back to link objects over the
DiGraph, keeping only consecutive pairs that are edges. -/
def pathNodesToLinks (links : List Link) : List String → List Link
  | u :: v :: rest =>
    (match digraphEdge links u v with
     | some l => [l]
     | none => []) ++ pathNodesToLinks links (v :: rest)
  | _ => []

/-- analysis.py, TrajectoryApproach._get_max_branch_wcrt: 0 when there are no
targets or no links; otherwise the maximum (starting from 0, unreachable
targets skipped) of the per-branch WCRT values. -/
def get_max_branch_wcrt (flow : RTAttributes) (all_flows : List RTAttributes)
    (src : String) (targets : List String) (available_links : List Link) : ℚ :=
  if targets = [] ∨ available_links = [] then 0
  else
    targets.foldl (fun maxv dst =>
      match taShortestPath available_links src dst with
      | none => maxv
      | some nodes =>
        let val := compute_path_wcrt flow all_flows (pathNodesToLinks available_links nodes)
        if maxv < val then val else maxv) 0

/-- analysis.py, TrajectoryApproach.calculate_wcrt: max branch WCRT over the
destinations, plus broker processing delay when qi > 0. -/
def calculate_wcrt (flow : RTAttributes) (all_flows : List RTAttributes) : ℚ :=
  get_max_branch_wcrt flow all_flows flow.src_ip flow.dst_ips flow.route_links +
    (if 0 < flow.qi then flow.processing_delay else 0)

end TrajectoryApproach

namespace AdmissionControl

/-- analysis.py, AdmissionControl.check_admissibility: candidate set is the
existing flows plus the new flow; reject when the new flow's TA WCRT exceeds
its deadline or some existing flow's TA WCRT (over the candidate set) exceeds
its own deadline. -/
def check_admissibility (new_flow : RTAttributes)
    (existing_flows : List RTAttributes) : Bool :=
  let candidate_set := existing_flows ++ [new_flow]
  if TrajectoryApproach.calculate_wcrt new_flow candidate_set > new_flow.di then false
  else if existing_flows.any (fun f =>
      decide (TrajectoryApproach.calculate_wcrt f candidate_set > f.di)) then false
  else true

end AdmissionControl

namespace HolisticApproach

/-- analysis.py, HolisticApproach.calculate_wcrt, step 1: static delay along
the route (transmission delay of ci * 1000 plus the four per-link delays),
plus the broker processing delay (added unconditionally by the source). -/
def static_delay (flow : RTAttributes) : ℚ :=
  (flow.route_links.map (fun l =>
    l.get_transmission_delay (flow.ci * 1000) +
      l.prop_delay + l.switch_delay + l.proc_delay + l.queuing_delay)).sum +
    flow.processing_delay

/-- analysis.py: sum of the per-link jitter along the route. -/
def path_jitter_sum (flow : RTAttributes) : ℚ :=
  (flow.route_links.map (fun l => l.jitter)).sum

/-- analysis.py: the unique interfering flows gathered across the whole route.
The Python set of flow objects is represented as the sublist of all_flows
whose members interfere on some route link; iteration order is immaterial
because the set is only summed over, and all_flows is assumed free of
duplicate flow objects. -/
def interfering_set (flow : RTAttributes) (all_flows : List RTAttributes) :
    List RTAttributes :=
  all_flows.filter (fun g =>
    g.ft_i != flow.ft_i && decide (flow.pi ≤ g.pi) &&
      flow.route_links.any (fun link => sharesLink g link))

/-- analysis.py: one interference sum, ceil((w + J_j)/T_j) * C_j over the
interfering set. -/
def interference_at (flow : RTAttributes) (all_flows : List RTAttributes)
    (w : ℚ) : ℚ :=
  ((interfering_set flow all_flows).map
    (fun g => ((⌈(w + g.measured_jitter) / g.ti⌉ : ℤ) : ℚ) * g.ci)).sum

/-- analysis.py: the loop body assignment
w = static_delay + ci + interference + path_jitter_sum. -/
def ha_next (flow : RTAttributes) (all_flows : List RTAttributes) (w : ℚ) : ℚ :=
  static_delay flow + flow.ci + interference_at flow all_flows w +
    path_jitter_sum flow

/-- analysis.py: the while loop, fueled.  At each round: stop (returning w)
when the convergence test abs(w - prev) > 0.001 fails; return w early when
w exceeds the deadline; otherwise iterate with prev := w, w := ha_next w.
Fuel exhaustion (the Python loop running forever) is none. -/
def ha_loop (flow : RTAttributes) (all_flows : List RTAttributes) :
    Nat → ℚ → ℚ → Option ℚ
  | 0, _, _ => none
  | n + 1, prev, w =>
    if ¬ (|w - prev| > 1 / 1000) then some w
    else if w > flow.di then some w
    else ha_loop flow all_flows n w (ha_next flow all_flows w)

/-- analysis.py, HolisticApproach.calculate_wcrt as a fueled function:
the loop is entered with prev = 0 and w = static_delay + ci. -/
def calculate_wcrt (flow : RTAttributes) (all_flows : List RTAttributes)
    (fuel : Nat) : Option ℚ :=
  ha_loop flow all_flows fuel 0 (static_delay flow + flow.ci)

/-- The Python while loop never finishes: every fuel bound is exhausted. -/
def ha_diverges (flow : RTAttributes) (all_flows : List RTAttributes) : Prop :=
  ∀ n, calculate_wcrt flow all_flows n = none

end HolisticApproach

namespace RoutingEngine

/-- routing.py, RoutingEngine._build_graph: the edge weight of a link.
cost = prop + switch + proc; utilization = bw_used / bw_capacity when
bw_capacity > 0, else 0.99; a utilization of at least 1.0 is replaced by
0.99; final cost = cost / (1 - utilization). -/
def code_utilization (l : Link) : ℚ :=
  let u := if 0 < l.bw_capacity then l.bw_used / l.bw_capacity else 99 / 100
  if 1 ≤ u then 99 / 100 else u

/-- routing.py: final_cost = (prop + switch + proc) / (1 - utilization). -/
def link_weight (l : Link) : ℚ :=
  (l.prop_delay + l.switch_delay + l.proc_delay) / (1 - code_utilization l)

/-- Nodes of the undirected networkx graph built by _build_graph, in
insertion order of add_edge(link.src, link.dst). -/
def graphNodes (links : List Link) : List String :=
  (links.flatMap (fun l => [l.src, l.dst])).foldl
    (fun acc x => if x ∈ acc then acc else acc ++ [x]) []

/-- Undirected edge attribute lookup: in a networkx Graph the edge (u, v) is
the edge (v, u), and a later add_edge on the pair overwrites the stored link
object, so the last matching link wins. -/
def edgeOf (links : List Link) (u v : String) : Option Link :=
  (links.filter (fun l =>
    (l.src == u && l.dst == v) || (l.src == v && l.dst == u))).getLast?

/-- Neighbors of a node in the undirected graph, in first-appearance order. -/
def neighbors (links : List Link) (u : String) : List String :=
  ((links.filter (fun l => l.src == u || l.dst == u)).map
    (fun l => if l.src == u then l.dst else l.src)).foldl
    (fun acc x => if x ∈ acc then acc else acc ++ [x]) []

/-- Total weight of a node path in the undirected graph (0 for paths of
length at most one; absent edges contribute 0 but enumerated paths only
traverse existing edges). -/
def path_weight (links : List Link) : List String → ℚ
  | u :: v :: rest =>
    ((edgeOf links u v).map link_weight).getD 0 + path_weight links (v :: rest)
  | _ => 0

/-- All simple paths from u to dst in the undirected graph, by depth-first
enumeration bounded by the node count.  This is the denotation used for
nx.dijkstra_path and nx.dijkstra_path_length: with the nonnegative weights
the sources use, the Dijkstra distance is the minimum simple-path weight. -/
def simplePathsAux (links : List Link) (dst : String) :
    Nat → String → List String → List (List String)
  | 0, _, _ => []
  | n + 1, u, visited =>
    if u == dst then [[u]]
    else ((neighbors links u).filter (fun v => !(visited.contains v))).flatMap
      (fun v => (simplePathsAux links dst n v (v :: visited)).map (fun p => u :: p))

/-- All simple paths between two graph nodes (empty when either endpoint is
not a node of the graph, matching the NodeNotFound exception). -/
def simplePaths (links : List Link) (src dst : String) : List (List String) :=
  if src ∈ graphNodes links ∧ dst ∈ graphNodes links then
    simplePathsAux links dst ((graphNodes links).length + 1) src [src]
  else []

/-- nx.dijkstra_path_length: the least weight among the simple paths, none
when no path exists (NetworkXNoPath) or an endpoint is absent. -/
def dijkstra_path_length (links : List Link) (src dst : String) : Option ℚ :=
  ((simplePaths links src dst).map (path_weight links)).min?

/-- nx.dijkstra_path: a minimum-weight path; among ties the first one in
enumeration order (networkx leaves the tie-break unspecified). -/
def dijkstra_path (links : List Link) (src dst : String) : Option (List String) :=
  match dijkstra_path_length links src dst with
  | none => none
  | some d => (simplePaths links src dst).find? (fun p => path_weight links p == d)

/-- routing.py, RoutingEngine._nodes_to_links: consecutive node pairs mapped
back to the stored link objects (only pairs that are edges contribute). -/
def nodes_to_links (links : List Link) : List String → List Link
  | u :: v :: rest =>
    (match edgeOf links u v with
     | some l => [l]
     | none => []) ++ nodes_to_links links (v :: rest)
  | _ => []

/-- Modelled from the spec: the multi-destination branch of calculate_path
uses the networkx Steiner-tree approximation with a documented fallback to
the deduplicated union of unicast Dijkstra paths.  The approximation itself
is not modelled; the fallback union is used for this branch, which no claim
exercises (every claim about calculate_path concerns a unicast query). -/
def multicast_tree_links (links : List Link) (src : String)
    (valid_dsts : List String) : List Link :=
  valid_dsts.foldl (fun acc dst =>
    match dijkstra_path links src dst with
    | none => acc
    | some nodes => (nodes_to_links links nodes).foldl
        (fun acc2 l => if l ∈ acc2 then acc2 else acc2 ++ [l]) acc) []

/-- routing.py, RoutingEngine.calculate_path: empty when the source is not in
the graph or no destination is; Dijkstra for a single valid destination
(empty on no path); the multicast tree otherwise. -/
def calculate_path (links : List Link) (src : String) (dsts : List String) :
    List Link :=
  if src ∉ graphNodes links then []
  else
    let valid_dsts := dsts.filter (fun d => d ∈ graphNodes links)
    if valid_dsts = [] then []
    else
      match valid_dsts with
      | [dst] =>
        (match dijkstra_path links src dst with
         | none => []
         | some nodes => nodes_to_links links nodes)
      | _ => multicast_tree_links links src valid_dsts

/-- routing.py, inside select_optimal_rp: the max Dijkstra distance from a
node to the valid subscribers (max starts at 0); none as soon as some
subscriber is unreachable (the NetworkXNoPath exception skips the node). -/
def ecc (links : List Link) (valid_subs : List String) (node : String) :
    Option ℚ :=
  valid_subs.foldl (fun acc s =>
    match acc, dijkstra_path_length links node s with
    | some m, some d => some (if m < d then d else m)
    | _, _ => none) (some 0)

/-- routing.py, inside select_optimal_rp: one step of the scan over the graph
nodes.  A node whose eccentricity computation raised is skipped; min_max_dist
starts as infinity (acc = none), and a later node replaces the incumbent only
on a strictly smaller max-distance. -/
def rp_step (f : String → Option ℚ) (acc : Option (String × ℚ))
    (node : String) : Option (String × ℚ) :=
  match f node with
  | none => acc
  | some d =>
    match acc with
    | none => some (node, d)
    | some (_, best) => if d < best then some (node, d) else acc

/-- routing.py, RoutingEngine.select_optimal_rp: none on an empty graph or no
valid subscribers; otherwise scan the graph nodes in order, keeping the first
node that strictly improves the minimal max-distance. -/
def select_optimal_rp (links : List Link) (subscribers : List String) :
    Option String :=
  if graphNodes links = [] then none
  else
    let valid_subs := subscribers.filter (fun s => s ∈ graphNodes links)
    if valid_subs = [] then none
    else
      ((graphNodes links).foldl (rp_step (ecc links valid_subs)) none).map
        Prod.fst

end RoutingEngine

/-- Modelled from the spec: the OF-DB registry (common/of_db.py is not among
the sources).  Links are kept as the snapshot list routing reads (values of
the link dict in insertion order); flows and subscribers are association
lists in dict insertion order. -/
structure OFDB where
  links : List Link := []
  flows : List (String × RTAttributes) := []
  subscribers : List (String × List String) := []
deriving DecidableEq

/-- Modelled from the spec: dict-style insertion, replacing in place on a
duplicate key and appending otherwise. -/
def assocSet {α : Type} (l : List (String × α)) (k : String) (v : α) :
    List (String × α) :=
  if l.any (fun p => p.1 == k) then
    l.map (fun p => if p.1 == k then (k, v) else p)
  else l ++ [(k, v)]

/-- Modelled from the spec: of_db.add_flow stores the descriptor under its
topic. -/
def OFDB.add_flow (db : OFDB) (topic : String) (f : RTAttributes) : OFDB :=
  { db with flows := assocSet db.flows topic f }

/-- Modelled from the spec: of_db.get_flow; a missing topic is an absent
marker, not an error. -/
def OFDB.get_flow (db : OFDB) (topic : String) : Option RTAttributes :=
  (db.flows.find? (fun p => p.1 == topic)).map Prod.snd

/-- Modelled from the spec: of_db.get_all_flows returns the flow dict; its
values in insertion order. -/
def OFDB.get_all_flows (db : OFDB) : List RTAttributes :=
  db.flows.map Prod.snd

/-- Modelled from the spec: of_db.add_subscriber adds the ip to the topic's
subscriber set. -/
def OFDB.add_subscriber (db : OFDB) (topic sub_ip : String) : OFDB :=
  let cur := ((db.subscribers.find? (fun p => p.1 == topic)).map Prod.snd).getD []
  let new := if sub_ip ∈ cur then cur else cur ++ [sub_ip]
  { db with subscribers := assocSet db.subscribers topic new }

/-- Stand-in for Python's abs(hash(topic)) % 2000 + 1 used when assigning a
multicast group id (the builtin string hash is randomized per process and not
modellable); no claim depends on the value, only on the assignment being made
once.  Deterministic: sum of code points mod 2000, plus 1. -/
def hash_group_id (topic : String) : Nat :=
  (topic.toList.foldl (fun a c => a + c.toNat) 0) % 2000 + 1

/-- ryu_mrt_app.py, RyuMRTApp._install_multicast_tree: the forwarding-map,
meter, group and flow-mod messages are data-plane effects outside the model;
the only OF-DB-visible effect is assigning multicast_group_id when it is
still 0. -/
def install_multicast_tree (flow : RTAttributes) : RTAttributes :=
  if flow.multicast_group_id = 0 then
    { flow with multicast_group_id := hash_group_id flow.ft_i }
  else flow

/-- ryu_mrt_app.py, register_rt_flow step 1: set src_ip and append broker_ip
to broker_ips when given and not already present. -/
def register_candidate (rt_attrs : RTAttributes) (src_ip : String)
    (broker_ip : Option String) : RTAttributes :=
  let rt1 := { rt_attrs with src_ip := src_ip }
  match broker_ip with
  | none => rt1
  | some b =>
    if b ∈ rt1.broker_ips then rt1
    else { rt1 with broker_ips := rt1.broker_ips ++ [b] }

/-- Result of register_rt_flow: the boolean the REST layer turns into
200 / 503, together with the OF-DB state after the call (the Python code
mutates the stored descriptor in place; the functional model writes the
final descriptor back). -/
structure RegResult where
  ok : Bool
  db : OFDB
deriving DecidableEq

/-- ryu_mrt_app.py, RyuMRTApp.register_rt_flow: (1) normalize the descriptor
and add it to OF-DB; (2) admission control over all flows now in OF-DB —
on reject return False with the flow still stored; (3) compute route_links
from src_ip to dst_ips; (4) install: direct multicast for qi = 0, otherwise
elect an RP into broker_ips when empty and install the path to the brokers
(route_links keeps the path to dst_ips computed in step 3). -/
def register_rt_flow (db : OFDB) (topic : String) (rt_attrs : RTAttributes)
    (src_ip : String) (broker_ip : Option String) : RegResult :=
  let rt2 := register_candidate rt_attrs src_ip broker_ip
  let db1 := db.add_flow topic rt2
  let all_flows := db1.get_all_flows
  if ¬ (AdmissionControl.check_admissibility rt2 all_flows = true) then
    ⟨false, db1⟩
  else
    let path_links := RoutingEngine.calculate_path db1.links rt2.src_ip rt2.dst_ips
    let rt3 := { rt2 with route_links := path_links, num_hops := path_links.length }
    if rt3.qi = 0 then
      ⟨true, db1.add_flow topic (install_multicast_tree rt3)⟩
    else
      let rt4 :=
        if rt3.broker_ips = [] then
          match RoutingEngine.select_optimal_rp db1.links rt3.dst_ips with
          | some rp => { rt3 with broker_ips := [rp] }
          | none => rt3
        else rt3
      ⟨true, db1.add_flow topic (install_multicast_tree rt4)⟩

/-- ryu_mrt_app.py, RyuMRTApp.handle_new_subscriber: record the subscriber,
then — when the topic has a flow — recompute route_links with
calculate_path(flow.src_ip, flow.dst_ips) and reinstall.  The source never
adds sub_ip to the flow's dst_ips. -/
def handle_new_subscriber (db : OFDB) (topic sub_ip : String) : OFDB :=
  let db1 := db.add_subscriber topic sub_ip
  match db1.get_flow topic with
  | none => db1
  | some flow =>
    let new_links := RoutingEngine.calculate_path db1.links flow.src_ip flow.dst_ips
    let flow2 := { flow with route_links := new_links }
    db1.add_flow topic (install_multicast_tree flow2)

/-! Concrete instances used by the claim evaluations. -/

/-- The empty registry. -/
def emptyDB : OFDB := {}

/-- A flow whose TA bound (processing_delay = 5, empty route) exceeds its
deadline 1, so admission rejects it. -/
def c2attrs : RTAttributes := { ft_i := "t", qi := 2, di := 1, processing_delay := 5 }

/-- Link 1 to 2 of the two-branch test topology. -/
def L12 : Link := { src := "1", dst := "2", prop_delay := 1, bw_capacity := 100 }

/-- Link 1 to 3 of the two-branch test topology. -/
def L13 : Link := { src := "1", dst := "3", prop_delay := 1, bw_capacity := 100 }

/-- An admitted flow from 1 with single destination 2, routed over L12. -/
def flowT : RTAttributes :=
  { ft_i := "t", qi := 0, ci := 1, ti := 10, di := 100, bwi := 5,
    src_ip := "1", dst_ips := ["2"], route_links := [L12] }

/-- Registry holding the two-branch topology and the admitted flow. -/
def c3db : OFDB := { links := [L12, L13], flows := [("t", flowT)] }

/-- The descriptor of flowT as submitted for registration (no route yet). -/
def c4attrs : RTAttributes :=
  { ft_i := "t", qi := 0, ci := 1, ti := 10, di := 100, bwi := 5, dst_ips := ["2"] }

/-- Registry holding the two-branch topology and no flows. -/
def c4db : OFDB := { links := [L12, L13] }

end MRT

namespace MRT

/-! Helper lemmas: a flow with an empty route is inert for the analysis. -/

/-- A flow without route links shares no link. -/
lemma sharesLink_of_nil {cand : RTAttributes} (h : cand.route_links = [])
    (link : Link) : sharesLink cand link = false := by
  simp [sharesLink, h]

/-- Appending a routeless flow to the flow set leaves every per-link
interferer list unchanged. -/
lemma interfering_append_nil (link : Link) (subject : RTAttributes)
    (F : List RTAttributes) {cand : RTAttributes} (h : cand.route_links = []) :
    get_interfering_flows_on_link link subject (F ++ [cand]) =
      get_interfering_flows_on_link link subject F := by
  unfold get_interfering_flows_on_link
  rw [List.filter_append]
  simp [sharesLink_of_nil h]

/-- Appending a routeless flow leaves every segment WCRT unchanged. -/
lemma compute_path_wcrt_append_nil (g : RTAttributes) (F : List RTAttributes)
    {cand : RTAttributes} (h : cand.route_links = []) (links : List Link) :
    TrajectoryApproach.compute_path_wcrt g (F ++ [cand]) links =
      TrajectoryApproach.compute_path_wcrt g F links := by
  unfold TrajectoryApproach.compute_path_wcrt
  simp only [interfering_append_nil _ _ _ h]

/-- Appending a routeless flow leaves every branch maximum unchanged. -/
lemma get_max_branch_append_nil (g : RTAttributes) (F : List RTAttributes)
    {cand : RTAttributes} (h : cand.route_links = []) (src : String)
    (targets : List String) (available_links : List Link) :
    TrajectoryApproach.get_max_branch_wcrt g (F ++ [cand]) src targets available_links =
      TrajectoryApproach.get_max_branch_wcrt g F src targets available_links := by
  unfold TrajectoryApproach.get_max_branch_wcrt
  simp only [compute_path_wcrt_append_nil _ _ h]

/-- Appending a routeless flow leaves every flow's TA WCRT unchanged. -/
lemma ta_wcrt_append_nil (g : RTAttributes) (F : List RTAttributes)
    {cand : RTAttributes} (h : cand.route_links = []) :
    TrajectoryApproach.calculate_wcrt g (F ++ [cand]) =
      TrajectoryApproach.calculate_wcrt g F := by
  unfold TrajectoryApproach.calculate_wcrt
  rw [get_max_branch_append_nil _ _ h]

/-- The TA WCRT of a routeless flow is its processing delay when qi > 0 and
0 otherwise. -/
lemma ta_wcrt_of_nil {cand : RTAttributes} (h : cand.route_links = [])
    (F : List RTAttributes) :
    TrajectoryApproach.calculate_wcrt cand F =
      (if 0 < cand.qi then cand.processing_delay else 0) := by
  unfold TrajectoryApproach.calculate_wcrt TrajectoryApproach.get_max_branch_wcrt
  simp [h]

/-- register_candidate only touches src_ip and broker_ips. -/
lemma register_candidate_fields (rt_attrs : RTAttributes) (src_ip : String)
    (broker_ip : Option String) :
    (register_candidate rt_attrs src_ip broker_ip).route_links = rt_attrs.route_links ∧
      (register_candidate rt_attrs src_ip broker_ip).qi = rt_attrs.qi ∧
      (register_candidate rt_attrs src_ip broker_ip).processing_delay =
        rt_attrs.processing_delay := by
  unfold register_candidate
  rcases broker_ip with _ | b
  · exact ⟨rfl, rfl, rfl⟩
  · dsimp only
    split_ifs <;> exact ⟨rfl, rfl, rfl⟩

/-- The registration verdict equals the admission verdict computed over the
flow set stored in OF-DB after the candidate itself was added. -/
lemma register_ok_eq (db : OFDB) (topic : String) (rt_attrs : RTAttributes)
    (src_ip : String) (broker_ip : Option String) :
    (register_rt_flow db topic rt_attrs src_ip broker_ip).ok =
      AdmissionControl.check_admissibility
        (register_candidate rt_attrs src_ip broker_ip)
        ((db.add_flow topic (register_candidate rt_attrs src_ip broker_ip)).get_all_flows) := by
  rcases hB : AdmissionControl.check_admissibility
      (register_candidate rt_attrs src_ip broker_ip)
      ((db.add_flow topic (register_candidate rt_attrs src_ip broker_ip)).get_all_flows)
    with _ | _ <;>
    · unfold register_rt_flow
      dsimp only
      rw [hB]
      simp only [apply_ite RegResult.ok]
      simp

/-! Claim theorems. -/

/-- Claim C1: admission control admits a candidate flow exactly when the
candidate's TA WCRT over the extended set is at most its deadline and every
existing flow's TA WCRT over the extended set is at most its own deadline;
both comparisons are non-strict, so a bound exactly equal to the deadline is
admitted. -/
theorem C1_admission_iff (f : RTAttributes) (F : List RTAttributes) :
    AdmissionControl.check_admissibility f F = true ↔
      (TrajectoryApproach.calculate_wcrt f (F ++ [f]) ≤ f.di ∧
        ∀ g ∈ F, TrajectoryApproach.calculate_wcrt g (F ++ [f]) ≤ g.di) := by
  unfold AdmissionControl.check_admissibility
  dsimp only
  split_ifs with h1 h2
  · simp only [false_iff]
    intro hc
    exact absurd hc.1 (not_le.mpr h1)
  · simp only [false_iff]
    intro hc
    rcases List.any_eq_true.mp h2 with ⟨g, hg, hgt⟩
    exact absurd (hc.2 g hg) (not_le.mpr (of_decide_eq_true hgt))
  · simp only [true_iff]
    refine ⟨not_lt.mp h1, fun g hg => ?_⟩
    by_contra hlt
    exact h2 (List.any_eq_true.mpr ⟨g, hg, decide_eq_true (not_le.mp hlt)⟩)

/-- Claim C2 is false of the code: register_rt_flow adds the flow to OF-DB
before admission control and does not remove it on rejection, so a rejected
flow remains visible in OF-DB (here: a flow with TA bound 5 and deadline 1 is
rejected, yet get_flow finds it afterwards). -/
theorem C2_rejected_flow_persists :
    (register_rt_flow emptyDB "t" c2attrs "1" none).ok = false ∧
      ((register_rt_flow emptyDB "t" c2attrs "1" none).db.get_flow "t").isSome = true := by
  simp [register_rt_flow, register_candidate, emptyDB, c2attrs, OFDB.add_flow,
    assocSet, OFDB.get_all_flows, OFDB.get_flow,
    AdmissionControl.check_admissibility, TrajectoryApproach.calculate_wcrt,
    TrajectoryApproach.get_max_branch_wcrt]

/-- Claim C3 is false of the code: handle_new_subscriber records the new
subscriber 3 under the topic but never adds it to the flow's dst_ips, and the
recomputed route is taken over the unchanged destination set, so the tree does
not reach node 3 although 3 is present in the topology. -/
theorem C3_subscriber_not_grafted :
    ((handle_new_subscriber c3db "t" "3").get_flow "t").map
        (fun f => f.dst_ips) = some ["2"] ∧
      (handle_new_subscriber c3db "t" "3").subscribers = [("t", ["3"])] ∧
      ((handle_new_subscriber c3db "t" "3").get_flow "t").map
        (fun f => f.route_links.map (fun l => (l.src, l.dst))) =
          some [("1", "2")] := by
  simp [handle_new_subscriber, c3db, flowT, L12, L13, OFDB.add_subscriber,
    OFDB.get_flow, OFDB.add_flow, assocSet, install_multicast_tree,
    RoutingEngine.calculate_path, RoutingEngine.graphNodes,
    RoutingEngine.dijkstra_path, RoutingEngine.dijkstra_path_length,
    RoutingEngine.simplePaths, RoutingEngine.simplePathsAux,
    RoutingEngine.neighbors, RoutingEngine.path_weight, RoutingEngine.edgeOf,
    RoutingEngine.link_weight, RoutingEngine.code_utilization,
    RoutingEngine.nodes_to_links, List.min?]

/-- Claim C4 is false of the code: a successful registration commits a
one-link route for a flow with bwi = 5, yet no link's bw_used is ever
updated — both links still carry bw_used = 0 although the sum of bwi over
flows routed through link 1 to 2 is 5. -/
theorem C4_no_bandwidth_accounting :
    (register_rt_flow c4db "t" c4attrs "1" none).ok = true ∧
      ((register_rt_flow c4db "t" c4attrs "1" none).db.get_flow "t").map
        (fun f => f.route_links.map (fun l => (l.src, l.dst))) =
          some [("1", "2")] ∧
      (register_rt_flow c4db "t" c4attrs "1" none).db.links.map
        (fun l => l.bw_used) = [0, 0] ∧
      ((((register_rt_flow c4db "t" c4attrs "1" none).db.get_all_flows).filter
        (fun f => sharesLink f L12)).map (fun f => f.bwi)).sum = 5 := by
  simp [register_rt_flow, register_candidate, c4db, c4attrs, L12, L13,
    OFDB.add_flow, OFDB.get_flow, OFDB.get_all_flows, assocSet,
    install_multicast_tree, sharesLink,
    AdmissionControl.check_admissibility, TrajectoryApproach.calculate_wcrt,
    TrajectoryApproach.get_max_branch_wcrt, TrajectoryApproach.compute_path_wcrt,
    TrajectoryApproach.taShortestPath, TrajectoryApproach.digraphNodes,
    TrajectoryApproach.bfsAux, TrajectoryApproach.digraphSuccs,
    TrajectoryApproach.digraphEdge, TrajectoryApproach.pathNodesToLinks,
    get_interfering_flows_on_link,
    RoutingEngine.calculate_path, RoutingEngine.graphNodes,
    RoutingEngine.dijkstra_path, RoutingEngine.dijkstra_path_length,
    RoutingEngine.simplePaths, RoutingEngine.simplePathsAux,
    RoutingEngine.neighbors, RoutingEngine.path_weight, RoutingEngine.edgeOf,
    RoutingEngine.link_weight, RoutingEngine.code_utilization,
    RoutingEngine.nodes_to_links, List.min?]

/-- Claim C5: in register_rt_flow the admission check runs before the route is
computed, so the candidate still has an empty route at check time; the
registration verdict is exactly the admission verdict over the candidate set
held in OF-DB at that moment; a routeless candidate's own TA WCRT is its
processing delay when qi > 0 and 0 otherwise; and appending the routeless
candidate to any flow set leaves every flow's TA WCRT unchanged (it is never
selected as an interferer). -/
theorem C5_admission_before_routing (db : OFDB) (topic : String)
    (rt_attrs : RTAttributes) (src_ip : String) (broker_ip : Option String)
    (h : rt_attrs.route_links = []) :
    (register_candidate rt_attrs src_ip broker_ip).route_links = [] ∧
      (register_rt_flow db topic rt_attrs src_ip broker_ip).ok =
        AdmissionControl.check_admissibility
          (register_candidate rt_attrs src_ip broker_ip)
          ((db.add_flow topic (register_candidate rt_attrs src_ip broker_ip)).get_all_flows) ∧
      (∀ F : List RTAttributes,
        TrajectoryApproach.calculate_wcrt
            (register_candidate rt_attrs src_ip broker_ip)
            (F ++ [register_candidate rt_attrs src_ip broker_ip]) =
          (if 0 < rt_attrs.qi then rt_attrs.processing_delay else 0)) ∧
      (∀ (g : RTAttributes) (F : List RTAttributes),
        TrajectoryApproach.calculate_wcrt g
            (F ++ [register_candidate rt_attrs src_ip broker_ip]) =
          TrajectoryApproach.calculate_wcrt g F) := by
  obtain ⟨hr, hq, hp⟩ := register_candidate_fields rt_attrs src_ip broker_ip
  have hnil : (register_candidate rt_attrs src_ip broker_ip).route_links = [] := by
    rw [hr, h]
  refine ⟨hnil, register_ok_eq db topic rt_attrs src_ip broker_ip, ?_, ?_⟩
  · intro F
    rw [ta_wcrt_of_nil hnil, hq, hp]
  · intro g F
    exact ta_wcrt_append_nil g F hnil

/-- Witness for C5: the concrete descriptor c4attrs has an empty route, and
instantiating the theorem at it yields that its own TA WCRT over any set it
is appended to is 0 (its qi is 0). -/
theorem C5_witness :
    c4attrs.route_links = [] ∧
      TrajectoryApproach.calculate_wcrt (register_candidate c4attrs "1" none)
        ([flowT] ++ [register_candidate c4attrs "1" none]) = 0 := by
  refine ⟨rfl, ?_⟩
  have h := (C5_admission_before_routing c4db "t" c4attrs "1" none rfl).2.2.1 [flowT]
  rw [h]
  norm_num [c4attrs]

/-- Claim C10: a unicast calculate_path query returns an empty list — not an
error — when the source is absent from the graph, when every destination is
absent, or when no path exists; and a single destination equal to the source
also yields an empty link list. -/
theorem C10_unicast_edge_cases (links : List Link) (src : String)
    (dsts : List String) :
    (src ∉ RoutingEngine.graphNodes links →
        RoutingEngine.calculate_path links src dsts = []) ∧
      (dsts.filter (fun d => d ∈ RoutingEngine.graphNodes links) = [] →
        RoutingEngine.calculate_path links src dsts = []) ∧
      (∀ d, dsts.filter (fun d2 => d2 ∈ RoutingEngine.graphNodes links) = [d] →
        RoutingEngine.simplePaths links src d = [] →
        RoutingEngine.calculate_path links src dsts = []) ∧
      (dsts.filter (fun d => d ∈ RoutingEngine.graphNodes links) = [src] →
        RoutingEngine.calculate_path links src dsts = []) := by
  refine ⟨fun h => ?_, fun h => ?_, fun d hd hsp => ?_, fun h => ?_⟩
  · simp [RoutingEngine.calculate_path, h]
  · by_cases hs : src ∈ RoutingEngine.graphNodes links
    · simp [RoutingEngine.calculate_path, hs, h]
    · simp [RoutingEngine.calculate_path, hs]
  · by_cases hs : src ∈ RoutingEngine.graphNodes links
    · simp only [RoutingEngine.calculate_path, hs, not_true, if_false, hd,
        RoutingEngine.dijkstra_path, RoutingEngine.dijkstra_path_length, hsp]
      simp
    · simp [RoutingEngine.calculate_path, hs]
  · have hs : src ∈ RoutingEngine.graphNodes links := by
      have hm : src ∈ dsts.filter (fun d => d ∈ RoutingEngine.graphNodes links) := by
        rw [h]; exact List.mem_singleton.mpr rfl
      simpa using List.of_mem_filter hm
    have hsp : RoutingEngine.simplePaths links src src = [[src]] := by
      unfold RoutingEngine.simplePaths RoutingEngine.simplePathsAux
      simp [hs]
    simp only [RoutingEngine.calculate_path, hs, not_true, if_false, h,
      RoutingEngine.dijkstra_path, RoutingEngine.dijkstra_path_length, hsp,
      RoutingEngine.path_weight, RoutingEngine.nodes_to_links, List.min?]
    simp [RoutingEngine.path_weight, RoutingEngine.nodes_to_links]

/-- Witness for C10: on the two-branch topology, a query from an unknown
source returns the empty list, and a query whose single valid destination
equals the source returns the empty list. -/
theorem C10_witness :
    RoutingEngine.calculate_path [L12, L13] "9" ["2"] = [] ∧
      RoutingEngine.calculate_path [L12, L13] "1" ["1"] = [] := by
  constructor
  · exact (C10_unicast_edge_cases [L12, L13] "9" ["2"]).1 (by decide)
  · exact (C10_unicast_edge_cases [L12, L13] "1" ["1"]).2.2.2 (by decide)

/-- The utilization the claim describes: min(bw_used / bw_capacity, 0.99),
with a zero-capacity link treated as 0.99.  Stated from the claim's words for
comparison with the source's code_utilization. -/
def claim_utilization (l : Link) : ℚ :=
  if l.bw_capacity = 0 then 99 / 100
  else min (l.bw_used / l.bw_capacity) (99 / 100)

/-- The edge weight the claim describes, built on claim_utilization. -/
def claim_weight (l : Link) : ℚ :=
  (l.prop_delay + l.switch_delay + l.proc_delay) / (1 - claim_utilization l)

/-- A link at utilization 0.995: cost 1, bw_used 995 of capacity 1000. -/
def c6link : Link :=
  { src := "a", dst := "b", prop_delay := 1, bw_used := 995, bw_capacity := 1000 }

/-- Claim C6 is false of the code at utilization 0.995: the claim's formula
min(u, 0.99) gives weight 1 / 0.01 = 100, but _build_graph only replaces the
ratio by 0.99 when it is at least 1, so the code's weight is 1 / 0.005 = 200. -/
theorem C6_weight_mismatch :
    RoutingEngine.link_weight c6link ≠ claim_weight c6link ∧
      RoutingEngine.link_weight c6link = 200 ∧ claim_weight c6link = 100 := by
  have h1 : RoutingEngine.link_weight c6link = 200 := by
    norm_num [RoutingEngine.link_weight, RoutingEngine.code_utilization, c6link]
  have h2 : claim_weight c6link = 100 := by
    norm_num [claim_weight, claim_utilization, c6link]
  exact ⟨by rw [h1, h2]; norm_num, h1, h2⟩

/-- Claim C6 as amended: for a link with nonnegative capacity whose raw
utilization ratio is not in [0.99, 1), the code's edge weight agrees with the
claim's formula (prop + switch + proc) / (1 - min(bw_used / bw_capacity,
0.99)), a zero-capacity link is treated as u = 0.99, and the utilization the
code uses is always below 1, so every weight is finite; on a raw ratio inside
[0.99, 1) the code uses the raw ratio unclamped instead of min(u, 0.99). -/
theorem C6_weight_amended (l : Link) (hcap : 0 ≤ l.bw_capacity)
    (hwin : ¬ (99 / 100 ≤ l.bw_used / l.bw_capacity ∧
      l.bw_used / l.bw_capacity < 1)) :
    RoutingEngine.link_weight l = claim_weight l ∧
      RoutingEngine.code_utilization l < 1 ∧
      (l.bw_capacity = 0 → RoutingEngine.code_utilization l = 99 / 100) := by
  rcases eq_or_lt_of_le hcap with hz | hpos
  · have hz' : l.bw_capacity = 0 := hz.symm
    refine ⟨?_, ?_, fun _ => ?_⟩ <;>
      norm_num [RoutingEngine.link_weight, RoutingEngine.code_utilization,
        claim_weight, claim_utilization, hz']
  · have hne : l.bw_capacity ≠ 0 := ne_of_gt hpos
    rcases le_or_lt 1 (l.bw_used / l.bw_capacity) with hr | hr
    · have hu : RoutingEngine.code_utilization l = 99 / 100 := by
        simp [RoutingEngine.code_utilization, hpos, hr]
      have hc : claim_utilization l = 99 / 100 := by
        simp only [claim_utilization, hne, if_false]
        exact min_eq_right (le_trans (by norm_num) hr)
      exact ⟨by rw [RoutingEngine.link_weight, claim_weight, hu, hc],
        by rw [hu]; norm_num, fun habs => absurd habs hne⟩
    · have hr99 : l.bw_used / l.bw_capacity < 99 / 100 := by
        rcases lt_or_le (l.bw_used / l.bw_capacity) (99 / 100) with h99 | h99
        · exact h99
        · exact absurd ⟨h99, hr⟩ hwin
      have hu : RoutingEngine.code_utilization l = l.bw_used / l.bw_capacity := by
        simp [RoutingEngine.code_utilization, hpos, not_le.mpr hr]
      have hc : claim_utilization l = l.bw_used / l.bw_capacity := by
        simp only [claim_utilization, hne, if_false]
        exact min_eq_left (le_of_lt hr99)
      exact ⟨by rw [RoutingEngine.link_weight, claim_weight, hu, hc],
        by rw [hu]; exact hr, fun habs => absurd habs hne⟩

/-- Witness for C6: the amended statement instantiated at link L12
(utilization 0), with both hypotheses discharged concretely. -/
theorem C6_witness :
    RoutingEngine.link_weight L12 = claim_weight L12 ∧
      RoutingEngine.code_utilization L12 < 1 ∧
      (L12.bw_capacity = 0 → RoutingEngine.code_utilization L12 = 99 / 100) :=
  C6_weight_amended L12 (by norm_num [L12]) (by norm_num [L12])

/-! Helper lemmas for the rendezvous-point scan. -/

namespace RoutingEngine

/-- One scan step keeps the accumulator populated and populates it from a
defined value. -/
lemma rp_step_isSome (f : String → Option ℚ) (acc : Option (String × ℚ))
    (x : String) (h : acc.isSome ∨ (f x).isSome) :
    (rp_step f acc x).isSome := by
  unfold rp_step
  rcases hfx : f x with _ | e
  · rcases h with h | h
    · exact h
    · rw [hfx] at h
      exact absurd h (by simp)
  · rcases acc with _ | ⟨p, q⟩
    · simp
    · dsimp only
      split_ifs <;> simp

/-- The scan ends populated as soon as the accumulator is populated or some
scanned node has a defined value. -/
lemma rpFold_isSome (f : String → Option ℚ) (l : List String) :
    ∀ acc : Option (String × ℚ),
      (acc.isSome ∨ ∃ m ∈ l, (f m).isSome) →
      (l.foldl (rp_step f) acc).isSome := by
  induction l with
  | nil =>
    intro acc h
    rcases h with h | ⟨m, hm, _⟩
    · exact h
    · exact absurd hm (List.not_mem_nil m)
  | cons x xs ih =>
    intro acc h
    rw [List.foldl_cons]
    apply ih
    rcases h with h | ⟨m, hm, hfm⟩
    · exact Or.inl (rp_step_isSome f acc x (Or.inl h))
    · rcases List.mem_cons.mp hm with rfl | hm2
      · exact Or.inl (rp_step_isSome f acc m (Or.inr hfm))
      · exact Or.inr ⟨m, hm2, hfm⟩

/-- Characterization of the scan: a populated result either is the untouched
accumulator, with no scanned value below it, or is the first scanned node
attaining the minimum — nodes before it are strictly worse, nodes after it
are no better, and it strictly improves on the incoming accumulator. -/
lemma rpFold_spec (f : String → Option ℚ) (l : List String) :
    ∀ (acc : Option (String × ℚ)) (n : String) (d : ℚ),
      l.foldl (rp_step f) acc = some (n, d) →
      (acc = some (n, d) ∧ ∀ m ∈ l, ∀ e, f m = some e → d ≤ e) ∨
      (∃ pre post, l = pre ++ n :: post ∧ f n = some d ∧
        (∀ m ∈ pre, ∀ e, f m = some e → d < e) ∧
        (∀ m ∈ post, ∀ e, f m = some e → d ≤ e) ∧
        (∀ p q, acc = some (p, q) → d < q)) := by
  induction l with
  | nil =>
    intro acc n d h
    rw [List.foldl_nil] at h
    exact Or.inl ⟨h, fun m hm => absurd hm (List.not_mem_nil m)⟩
  | cons x xs ih =>
    intro acc n d h
    rw [List.foldl_cons] at h
    rcases hfx : f x with _ | e
    · have hstep : rp_step f acc x = acc := by
        unfold rp_step
        rw [hfx]
      rw [hstep] at h
      rcases ih acc n d h with ⟨ha, hall⟩ | ⟨pre, post, heq, hfn, hpre, hpost, hacc⟩
      · refine Or.inl ⟨ha, fun m hm e hfe => ?_⟩
        rcases List.mem_cons.mp hm with rfl | hm2
        · rw [hfx] at hfe
          exact absurd hfe (by simp)
        · exact hall m hm2 e hfe
      · refine Or.inr ⟨x :: pre, post, by rw [heq, List.cons_append], hfn,
          fun m hm e hfe => ?_, hpost, hacc⟩
        rcases List.mem_cons.mp hm with rfl | hm2
        · rw [hfx] at hfe
          exact absurd hfe (by simp)
        · exact hpre m hm2 e hfe
    · rcases acc with _ | ⟨p, q⟩
      · have hstep : rp_step f none x = some (x, e) := by
          unfold rp_step
          rw [hfx]
        rw [hstep] at h
        rcases ih (some (x, e)) n d h with ⟨ha, hall⟩ | ⟨pre, post, heq, hfn, hpre, hpost, hacc⟩
        · obtain ⟨rfl, rfl⟩ : x = n ∧ e = d := by
            have := Option.some.inj ha
            exact ⟨congrArg Prod.fst this, congrArg Prod.snd this⟩
          exact Or.inr ⟨[], xs, rfl, hfx, fun m hm => absurd hm (List.not_mem_nil m),
            hall, fun p q hpq => absurd hpq (by simp)⟩
        · refine Or.inr ⟨x :: pre, post, by rw [heq, List.cons_append], hfn,
            fun m hm e2 hfe => ?_, hpost, fun p q hpq => absurd hpq (by simp)⟩
          rcases List.mem_cons.mp hm with rfl | hm2
          · rw [hfx] at hfe
            have he : e = e2 := Option.some.inj hfe
            exact he ▸ hacc m e rfl
          · exact hpre m hm2 e2 hfe
      · by_cases helt : e < q
        · have hstep : rp_step f (some (p, q)) x = some (x, e) := by
            unfold rp_step
            rw [hfx]
            simp [helt]
          rw [hstep] at h
          rcases ih (some (x, e)) n d h with ⟨ha, hall⟩ | ⟨pre, post, heq, hfn, hpre, hpost, hacc⟩
          · obtain ⟨rfl, rfl⟩ : x = n ∧ e = d := by
              have := Option.some.inj ha
              exact ⟨congrArg Prod.fst this, congrArg Prod.snd this⟩
            exact Or.inr ⟨[], xs, rfl, hfx, fun m hm => absurd hm (List.not_mem_nil m),
              hall, fun p2 q2 hpq => by
                obtain ⟨_, rfl⟩ : p = p2 ∧ q = q2 := by
                  have := Option.some.inj hpq
                  exact ⟨congrArg Prod.fst this, congrArg Prod.snd this⟩
                exact helt⟩
          · have hde : d < e := hacc x e rfl
            refine Or.inr ⟨x :: pre, post, by rw [heq, List.cons_append], hfn,
              fun m hm e2 hfe => ?_, hpost, fun p2 q2 hpq => by
                obtain ⟨_, rfl⟩ : p = p2 ∧ q = q2 := by
                  have := Option.some.inj hpq
                  exact ⟨congrArg Prod.fst this, congrArg Prod.snd this⟩
                exact lt_trans hde helt⟩
            rcases List.mem_cons.mp hm with rfl | hm2
            · rw [hfx] at hfe
              have he : e = e2 := Option.some.inj hfe
              exact he ▸ hde
            · exact hpre m hm2 e2 hfe
        · have hstep : rp_step f (some (p, q)) x = some (p, q) := by
            unfold rp_step
            rw [hfx]
            simp [helt]
          rw [hstep] at h
          rcases ih (some (p, q)) n d h with ⟨ha, hall⟩ | ⟨pre, post, heq, hfn, hpre, hpost, hacc⟩
          · obtain ⟨rfl, rfl⟩ : p = n ∧ q = d := by
              have := Option.some.inj ha
              exact ⟨congrArg Prod.fst this, congrArg Prod.snd this⟩
            refine Or.inl ⟨rfl, fun m hm e2 hfe => ?_⟩
            rcases List.mem_cons.mp hm with rfl | hm2
            · rw [hfx] at hfe
              have he : e = e2 := Option.some.inj hfe
              exact he ▸ le_of_not_lt helt
            · exact hall m hm2 e2 hfe
          · have hdq : d < q := hacc p q rfl
            refine Or.inr ⟨x :: pre, post, by rw [heq, List.cons_append], hfn,
              fun m hm e2 hfe => ?_, hpost, fun p2 q2 hpq => by
                obtain ⟨_, rfl⟩ : p = p2 ∧ q = q2 := by
                  have := Option.some.inj hpq
                  exact ⟨congrArg Prod.fst this, congrArg Prod.snd this⟩
                exact hdq⟩
            rcases List.mem_cons.mp hm with rfl | hm2
            · rw [hfx] at hfe
              have he : e = e2 := Option.some.inj hfe
              exact he ▸ lt_of_lt_of_le hdq (le_of_not_lt helt)
            · exact hpre m hm2 e2 hfe

end RoutingEngine

/-- Triangle link 3 to 2 (equal weights), inserted first. -/
def T32 : Link := { src := "3", dst := "2", prop_delay := 1, bw_capacity := 100 }

/-- Triangle link 2 to 1 (equal weights). -/
def T21 : Link := { src := "2", dst := "1", prop_delay := 1, bw_capacity := 100 }

/-- Triangle link 1 to 3 (equal weights). -/
def T13 : Link := { src := "1", dst := "3", prop_delay := 1, bw_capacity := 100 }

/-- Triangle link 1 to 2 (equal weights), ascending insertion order. -/
def A12 : Link := { src := "1", dst := "2", prop_delay := 1, bw_capacity := 100 }

/-- Triangle link 1 to 3 (equal weights), ascending insertion order. -/
def A13 : Link := { src := "1", dst := "3", prop_delay := 1, bw_capacity := 100 }

/-- Triangle link 2 to 3 (equal weights), ascending insertion order. -/
def A23 : Link := { src := "2", dst := "3", prop_delay := 1, bw_capacity := 100 }

set_option maxHeartbeats 1000000 in
/-- Claim C7 is false of the code: on the equal-weight triangle whose links
are inserted in the order 3-2, 2-1, 1-3, the nodes 1 and 3 both attain the
minimal max-distance 1 to the subscribers {2, 3}, yet select_optimal_rp
returns node 3 — the first node in graph insertion order — not the lowest
node id 1. -/
theorem C7_tie_not_lowest_id :
    RoutingEngine.select_optimal_rp [T32, T21, T13] ["2", "3"] = some "3" ∧
      RoutingEngine.ecc [T32, T21, T13] ["2", "3"] "1" = some 1 ∧
      RoutingEngine.ecc [T32, T21, T13] ["2", "3"] "3" = some 1 := by
  refine ⟨?_, ?_, ?_⟩ <;>
    (simp [RoutingEngine.select_optimal_rp, RoutingEngine.rp_step,
      RoutingEngine.ecc, RoutingEngine.graphNodes,
      RoutingEngine.dijkstra_path_length, RoutingEngine.simplePaths,
      RoutingEngine.simplePathsAux, RoutingEngine.neighbors,
      RoutingEngine.path_weight, RoutingEngine.edgeOf,
      RoutingEngine.link_weight, RoutingEngine.code_utilization,
      T32, T21, T13, List.min?];
     norm_num [min_def])

/-- Claim C7 as amended: whenever some valid subscriber exists and some graph
node reaches every valid subscriber, select_optimal_rp returns a node; and
any returned node n carries a defined max-distance d that is minimal among
all graph nodes with a defined max-distance, with every node placed before n
in graph insertion order being strictly worse — so ties are broken by
insertion order of the graph nodes, not by lowest node id. -/
theorem C7_rp_minmax (links : List Link) (subscribers : List String) :
    ((subscribers.filter (fun s => s ∈ RoutingEngine.graphNodes links) ≠ [] ∧
        ∃ m ∈ RoutingEngine.graphNodes links,
          (RoutingEngine.ecc links
            (subscribers.filter (fun s => s ∈ RoutingEngine.graphNodes links))
            m).isSome) →
      (RoutingEngine.select_optimal_rp links subscribers).isSome) ∧
    (∀ n, RoutingEngine.select_optimal_rp links subscribers = some n →
      ∃ d pre post,
        RoutingEngine.ecc links
          (subscribers.filter (fun s => s ∈ RoutingEngine.graphNodes links)) n =
            some d ∧
        RoutingEngine.graphNodes links = pre ++ n :: post ∧
        (∀ m ∈ pre, ∀ e, RoutingEngine.ecc links
          (subscribers.filter (fun s => s ∈ RoutingEngine.graphNodes links)) m =
            some e → d < e) ∧
        (∀ m ∈ RoutingEngine.graphNodes links, ∀ e, RoutingEngine.ecc links
          (subscribers.filter (fun s => s ∈ RoutingEngine.graphNodes links)) m =
            some e → d ≤ e)) := by
  constructor
  · rintro ⟨hv, m, hm, hecc⟩
    have hns : RoutingEngine.graphNodes links ≠ [] :=
      List.ne_nil_of_mem hm
    unfold RoutingEngine.select_optimal_rp
    dsimp only
    rw [if_neg hns, if_neg hv]
    rw [Option.isSome_map']
    exact RoutingEngine.rpFold_isSome _ _ none (Or.inr ⟨m, hm, hecc⟩)
  · intro n h
    unfold RoutingEngine.select_optimal_rp at h
    dsimp only at h
    by_cases hns : RoutingEngine.graphNodes links = []
    · rw [if_pos hns] at h
      exact absurd h (by simp)
    · rw [if_neg hns] at h
      by_cases hv : subscribers.filter
          (fun s => s ∈ RoutingEngine.graphNodes links) = []
      · rw [if_pos hv] at h
        exact absurd h (by simp)
      · rw [if_neg hv] at h
        obtain ⟨⟨n', d⟩, hfold, hfst⟩ := Option.map_eq_some'.mp h
        have hn : n' = n := hfst
        subst hn
        rcases RoutingEngine.rpFold_spec _ _ none n' d hfold with
          ⟨ha, _⟩ | ⟨pre, post, heq, hfn, hpre, hpost, _⟩
        · exact absurd ha (by simp)
        · refine ⟨d, pre, post, hfn, heq, hpre, fun m hm e hecc => ?_⟩
          rw [heq] at hm
          rcases List.mem_append.mp hm with hm1 | hm2
          · exact le_of_lt (hpre m hm1 e hecc)
          · rcases List.mem_cons.mp hm2 with rfl | hm3
            · rw [hfn] at hecc
              exact le_of_eq (Option.some.inj hecc)
            · exact hpost m hm3 e hecc

set_option maxHeartbeats 1000000 in
/-- Witness for C7: on the equal-weight triangle inserted in ascending order
1-2, 1-3, 2-3 with subscribers {2, 3}, the scan returns node 1 (the first
node in insertion order among the tied minimizers), and the amended theorem
instantiated there yields its minimality certificate. -/
theorem C7_witness :
    RoutingEngine.select_optimal_rp [A12, A13, A23] ["2", "3"] = some "1" ∧
      ∃ d pre post,
        RoutingEngine.ecc [A12, A13, A23]
          (["2", "3"].filter
            (fun s => s ∈ RoutingEngine.graphNodes [A12, A13, A23])) "1" =
              some d ∧
        RoutingEngine.graphNodes [A12, A13, A23] = pre ++ "1" :: post ∧
        (∀ m ∈ pre, ∀ e, RoutingEngine.ecc [A12, A13, A23]
          (["2", "3"].filter
            (fun s => s ∈ RoutingEngine.graphNodes [A12, A13, A23])) m =
              some e → d < e) ∧
        (∀ m ∈ RoutingEngine.graphNodes [A12, A13, A23], ∀ e,
          RoutingEngine.ecc [A12, A13, A23]
            (["2", "3"].filter
              (fun s => s ∈ RoutingEngine.graphNodes [A12, A13, A23])) m =
                some e → d ≤ e) := by
  have hsel : RoutingEngine.select_optimal_rp [A12, A13, A23] ["2", "3"] =
      some "1" := by
    simp [RoutingEngine.select_optimal_rp, RoutingEngine.rp_step,
      RoutingEngine.ecc, RoutingEngine.graphNodes,
      RoutingEngine.dijkstra_path_length, RoutingEngine.simplePaths,
      RoutingEngine.simplePathsAux, RoutingEngine.neighbors,
      RoutingEngine.path_weight, RoutingEngine.edgeOf,
      RoutingEngine.link_weight, RoutingEngine.code_utilization,
      A12, A13, A23, List.min?]
    norm_num [min_def]
  exact ⟨hsel, (C7_rp_minmax [A12, A13, A23] ["2", "3"]).2 "1" hsel⟩

/-- Chain link 1 to 2 with 5 ms propagation delay. -/
def K12 : Link := { src := "1", dst := "2", prop_delay := 5, bw_capacity := 100 }

/-- Chain link 2 to 4 with 5 ms propagation delay. -/
def K24 : Link := { src := "2", dst := "4", prop_delay := 5, bw_capacity := 100 }

/-- Flow B of the spec's interference scenario, routed over the chain. -/
def fB : RTAttributes :=
  { ft_i := "B", ci := 5, pi := 5, ti := 50, di := 50, bwi := 10,
    src_ip := "1", dst_ips := ["4"], route_links := [K12, K24] }

/-- Flow C of the spec's interference scenario, higher priority, same chain. -/
def fC : RTAttributes :=
  { ft_i := "C", ci := 1/2, pi := 10, ti := 20, di := 50, bwi := 1,
    src_ip := "1", dst_ips := ["4"], route_links := [K12, K24] }

/-- The branch value the claim describes for one destination path: the sum
over the path links of prop + switch + proc, plus ci(f), plus for each path
link the sum over interferers g (flows other than f sharing the link with
pi(g) at least pi(f)) of ceil(di(f)/ti(g)) * ci(g).  Stated from the claim's
words for comparison with the source's per-segment computation. -/
def claim_branch (flow : RTAttributes) (all_flows : List RTAttributes)
    (links : List Link) : ℚ :=
  (links.map (fun l => l.prop_delay + l.switch_delay + l.proc_delay)).sum +
    flow.ci +
    (links.map (fun link =>
      ((get_interfering_flows_on_link link flow all_flows).map
        (fun g => ((⌈flow.di / g.ti⌉ : ℤ) : ℚ) * g.ci)).sum)).sum

/-- On a nonempty segment the source's per-segment WCRT is exactly the
claim's branch formula. -/
lemma compute_path_wcrt_eq_claim (flow : RTAttributes)
    (all_flows : List RTAttributes) {links : List Link} (h : links ≠ []) :
    TrajectoryApproach.compute_path_wcrt flow all_flows links =
      claim_branch flow all_flows links := by
  unfold TrajectoryApproach.compute_path_wcrt claim_branch
  rw [if_neg h]

/-- Characterization of a running-maximum fold: the result is the initial
value or one of the scanned values, bounds the initial value, and bounds
every scanned value. -/
lemma foldl_max_spec (w : String → ℚ) (l : List String) :
    ∀ acc : ℚ,
      (l.foldl (fun m d => if m < w d then w d else m) acc = acc ∨
        ∃ d ∈ l, l.foldl (fun m d => if m < w d then w d else m) acc = w d) ∧
      acc ≤ l.foldl (fun m d => if m < w d then w d else m) acc ∧
      ∀ d ∈ l, w d ≤ l.foldl (fun m d => if m < w d then w d else m) acc := by
  induction l with
  | nil =>
    intro acc
    exact ⟨Or.inl rfl, le_refl acc, fun d hd => absurd hd (List.not_mem_nil d)⟩
  | cons x xs ih =>
    intro acc
    rw [List.foldl_cons]
    obtain ⟨hmem, hacc2, hall⟩ := ih (if acc < w x then w x else acc)
    have hax : acc ≤ (if acc < w x then w x else acc) := by
      split_ifs with hlt
      · exact le_of_lt hlt
      · exact le_refl acc
    have hwx : w x ≤ (if acc < w x then w x else acc) := by
      split_ifs with hlt
      · exact le_refl (w x)
      · exact le_of_not_lt hlt
    refine ⟨?_, le_trans hax hacc2, fun d hd => ?_⟩
    · rcases hmem with h1 | ⟨d, hd, hv⟩
      · by_cases hlt : acc < w x
        · exact Or.inr ⟨x, List.mem_cons_self x xs, h1.trans (if_pos hlt)⟩
        · exact Or.inl (h1.trans (if_neg hlt))
      · exact Or.inr ⟨d, List.mem_cons_of_mem x hd, hv⟩
    · rcases List.mem_cons.mp hd with rfl | hd2
      · exact le_trans hwx hacc2
      · exact hall d hd2

/-- Claim C8: for every flow and candidate set, when every destination has a
path in the flow's route (given by the function paths, with a nonempty link
sequence and a nonnegative branch value), the Trajectory Approach WCRT is the
maximum over the destinations of the claim's branch formula — path hardware
delay plus ci plus per-link interference ceil(di/ti)*ci over equal-or-higher
priority sharers — plus processing_delay exactly when qi > 0.  The value is
computed in closed form; no fixed-point iteration is involved. -/
theorem C8_ta_formula (f : RTAttributes) (F : List RTAttributes)
    (paths : String → List String)
    (hne : f.dst_ips ≠ [])
    (hl : f.route_links ≠ [])
    (hp : ∀ d ∈ f.dst_ips,
      TrajectoryApproach.taShortestPath f.route_links f.src_ip d = some (paths d))
    (hnil : ∀ d ∈ f.dst_ips,
      TrajectoryApproach.pathNodesToLinks f.route_links (paths d) ≠ [])
    (hpos : ∀ d ∈ f.dst_ips,
      0 ≤ claim_branch f F (TrajectoryApproach.pathNodesToLinks f.route_links (paths d))) :
    (∃ d ∈ f.dst_ips,
      TrajectoryApproach.calculate_wcrt f F =
        claim_branch f F (TrajectoryApproach.pathNodesToLinks f.route_links (paths d)) +
          (if 0 < f.qi then f.processing_delay else 0)) ∧
    (∀ d ∈ f.dst_ips,
      claim_branch f F (TrajectoryApproach.pathNodesToLinks f.route_links (paths d)) +
        (if 0 < f.qi then f.processing_delay else 0) ≤
        TrajectoryApproach.calculate_wcrt f F) := by
  set w : String → ℚ := fun d =>
    claim_branch f F (TrajectoryApproach.pathNodesToLinks f.route_links (paths d))
    with hw
  have hbranch : TrajectoryApproach.get_max_branch_wcrt f F f.src_ip f.dst_ips
      f.route_links = f.dst_ips.foldl (fun m d => if m < w d then w d else m) 0 := by
    unfold TrajectoryApproach.get_max_branch_wcrt
    rw [if_neg (by simp [hne, hl])]
    apply List.foldl_ext
    intro acc d hd
    rw [hp d hd]
    dsimp only
    rw [compute_path_wcrt_eq_claim f F (hnil d hd)]
  obtain ⟨hmem, _, hall⟩ := foldl_max_spec w f.dst_ips 0
  have hwcrt : TrajectoryApproach.calculate_wcrt f F =
      f.dst_ips.foldl (fun m d => if m < w d then w d else m) 0 +
        (if 0 < f.qi then f.processing_delay else 0) := by
    unfold TrajectoryApproach.calculate_wcrt
    rw [hbranch]
  constructor
  · rcases hmem with h0 | ⟨d, hd, hv⟩
    · obtain ⟨d0, hd0⟩ := List.exists_mem_of_ne_nil f.dst_ips hne
      refine ⟨d0, hd0, ?_⟩
      have h1 : w d0 ≤ 0 := h0 ▸ hall d0 hd0
      have h2 : claim_branch f F
          (TrajectoryApproach.pathNodesToLinks f.route_links (paths d0)) = 0 :=
        le_antisymm h1 (hpos d0 hd0)
      rw [hwcrt, h0, h2]
    · exact ⟨d, hd, by rw [hwcrt, hv]⟩
  · intro d hd
    rw [hwcrt]
    exact add_le_add_right (hall d hd) _

/-- Witness for C8: the spec's interference scenario — flow B (ci 5, pi 5,
ti 50, di 50) routed 1-2-4, with the higher-priority flow C (ci 0.5, pi 10,
ti 20) sharing both links: B's branch value is 10 + 5 + 3 = 18, and the
theorem instantiated there gives the max characterization. -/
theorem C8_witness :
    claim_branch fB [fB, fC]
        (TrajectoryApproach.pathNodesToLinks fB.route_links ["1", "2", "4"]) = 18 ∧
      (∃ d ∈ fB.dst_ips,
        TrajectoryApproach.calculate_wcrt fB [fB, fC] =
          claim_branch fB [fB, fC]
            (TrajectoryApproach.pathNodesToLinks fB.route_links ["1", "2", "4"]) +
            (if 0 < fB.qi then fB.processing_delay else 0)) ∧
      (∀ d ∈ fB.dst_ips,
        claim_branch fB [fB, fC]
          (TrajectoryApproach.pathNodesToLinks fB.route_links ["1", "2", "4"]) +
          (if 0 < fB.qi then fB.processing_delay else 0) ≤
          TrajectoryApproach.calculate_wcrt fB [fB, fC]) := by
  have hval : claim_branch fB [fB, fC]
      (TrajectoryApproach.pathNodesToLinks fB.route_links ["1", "2", "4"]) = 18 := by
    have hceil : (⌈(50 : ℚ) / 20⌉ : ℤ) = 3 := by
      rw [Int.ceil_eq_iff]
      norm_num
    simp [claim_branch, TrajectoryApproach.pathNodesToLinks,
      TrajectoryApproach.digraphEdge, get_interfering_flows_on_link, sharesLink,
      fB, fC, K12, K24, hceil]
    norm_num
  have h := C8_ta_formula fB [fB, fC] (fun _ => ["1", "2", "4"])
    (by simp [fB]) (by simp [fB, K12, K24])
    (by
      intro d hd
      have hd4 : d = "4" := by
        simpa [fB] using hd
      subst hd4
      decide)
    (by
      intro d hd
      simp [fB, K12, K24, TrajectoryApproach.pathNodesToLinks,
        TrajectoryApproach.digraphEdge])
    (by
      intro d hd
      rw [hval]
      norm_num)
  exact ⟨hval, h.1, h.2⟩

/-- Link a to b with capacity 1/1000 Mbps, making the transmission delay of
flow c9flow come out at exactly 1/4 ms. -/
def c9link : Link := { src := "a", dst := "b", bw_capacity := 1 / 1000 }

/-- The flow under HA analysis in the divergence instance: ci = 1/4 so that
w0 = static + ci = 1/2, deadline 100 never reached from below. -/
def c9flow : RTAttributes :=
  { ft_i := "f", ci := 1 / 4, ti := 1, di := 100, route_links := [c9link] }

/-- The interferer of the divergence instance: ti = 1 > 0 and ci = 2 >= 0 as
the claim requires, but measured_jitter = -10. -/
def c9int : RTAttributes :=
  { ft_i := "g", ci := 2, ti := 1, measured_jitter := -10,
    route_links := [c9link] }

/-- The HA interferer set of the divergence instance is the singleton. -/
lemma c9_interfering :
    HolisticApproach.interfering_set c9flow [c9flow, c9int] = [c9int] := by
  simp [HolisticApproach.interfering_set, sharesLink, c9flow, c9int, c9link]

/-- The HA iteration map of the divergence instance:
w maps to 1/2 + 2 * ceil(w - 10). -/
lemma c9_next (w : ℚ) :
    HolisticApproach.ha_next c9flow [c9flow, c9int] w =
      1 / 2 + ((⌈w - 10⌉ : ℤ) : ℚ) * 2 := by
  unfold HolisticApproach.ha_next HolisticApproach.interference_at
  rw [c9_interfering]
  have hs : HolisticApproach.static_delay c9flow = 1 / 4 := by
    norm_num [HolisticApproach.static_delay, Link.get_transmission_delay,
      c9flow, c9link]
  have hj : HolisticApproach.path_jitter_sum c9flow = 0 := by
    norm_num [HolisticApproach.path_jitter_sum, c9flow, c9link]
  rw [hs, hj]
  have harg : w + c9int.measured_jitter = w - 10 := by
    simp only [c9int]
    ring
  simp only [List.map_cons, List.map_nil, List.sum_cons, List.sum_nil]
  rw [harg]
  norm_num [c9flow, c9int]

/-- On arguments of the form 1/2 + 2k - 10, the ceiling is 2k - 9. -/
lemma c9_ceil (k : ℤ) : (⌈(1 / 2 + 2 * (k : ℚ)) - 10⌉ : ℤ) = 2 * k - 9 := by
  have h : (1 / 2 + 2 * (k : ℚ)) - 10 = 1 / 2 + ((2 * k - 10 : ℤ) : ℚ) := by
    push_cast
    ring
  rw [h, Int.ceil_add_int]
  have hc : (⌈(1 / 2 : ℚ)⌉ : ℤ) = 1 := by
    rw [Int.ceil_eq_iff]
    norm_num
  rw [hc]
  ring

/-- The divergence invariant: from any state whose w is 1/2 + 2k with k ≤ 0
and whose convergence test fires, the loop never returns, whatever the fuel. -/
lemma c9_loop_none :
    ∀ (n : Nat) (prev : ℚ) (k : ℤ), k ≤ 0 →
      |(1 / 2 + 2 * (k : ℚ)) - prev| > 1 / 1000 →
      HolisticApproach.ha_loop c9flow [c9flow, c9int] n prev
        (1 / 2 + 2 * (k : ℚ)) = none := by
  intro n
  induction n with
  | zero => intro prev k _ _; rfl
  | succ n ih =>
    intro prev k hk hgt
    unfold HolisticApproach.ha_loop
    rw [if_neg (by simpa using hgt)]
    have hle : ¬ (1 / 2 + 2 * (k : ℚ) > c9flow.di) := by
      have hkq : (k : ℚ) ≤ 0 := by exact_mod_cast hk
      simp only [c9flow]
      push_neg
      nlinarith
    rw [if_neg hle]
    have hnext : HolisticApproach.ha_next c9flow [c9flow, c9int]
        (1 / 2 + 2 * (k : ℚ)) = 1 / 2 + 2 * ((2 * k - 9 : ℤ) : ℚ) := by
      rw [c9_next, c9_ceil]
      push_cast
      ring
    rw [hnext]
    apply ih _ (2 * k - 9) (by omega)
    have hkq : (k : ℚ) ≤ 0 := by exact_mod_cast hk
    have hdiff : (1 / 2 + 2 * ((2 * k - 9 : ℤ) : ℚ)) - (1 / 2 + 2 * (k : ℚ)) =
        2 * (k : ℚ) - 18 := by
      push_cast
      ring
    rw [hdiff]
    rw [abs_sub_comm] at hgt
    rw [abs_of_nonpos (by nlinarith)]
    nlinarith

/-- Claim C9 is false of the code as stated: with the interferer g having
ti = 1 > 0 and ci = 2 >= 0 but measured_jitter = -10, and the flow having the
finite deadline 100, the HA while loop diverges towards minus infinity — the
iterates never satisfy the convergence test and never exceed the deadline, so
the loop never terminates for any fuel. -/
theorem C9_ha_nonterminating :
    HolisticApproach.ha_diverges c9flow [c9flow, c9int] := by
  intro n
  unfold HolisticApproach.calculate_wcrt
  have hw0 : HolisticApproach.static_delay c9flow + c9flow.ci =
      1 / 2 + 2 * ((0 : ℤ) : ℚ) := by
    norm_num [HolisticApproach.static_delay, Link.get_transmission_delay,
      c9flow, c9link]
  rw [hw0]
  apply c9_loop_none n 0 0 (le_refl 0)
  have habs : |(1 / 2 + 2 * ((0 : ℤ) : ℚ)) - 0| = 1 / 2 := by
    rw [show (1 / 2 + 2 * ((0 : ℤ) : ℚ)) - 0 = 1 / 2 by push_cast; ring]
    exact abs_of_pos (by norm_num)
  rw [habs]
  norm_num

/-! Termination apparatus for the amended C9: with nonnegative jitters the HA
iterates are monotone and the integer ceiling profile is a bounded strictly
increasing measure along the loop. -/

/-- The integer interference profile at w: the sum over the HA interferer set
of the ceilings the iteration takes. -/
def ha_ceil_sum (f : RTAttributes) (F : List RTAttributes) (w : ℚ) : ℤ :=
  ((HolisticApproach.interfering_set f F).map
    (fun g => ⌈(w + g.measured_jitter) / g.ti⌉)).sum

/-- Each ceiling term is monotone in w when the interferer period is
positive. -/
lemma ha_ceil_term_mono {g : RTAttributes} (hg : 0 < g.ti) {x y : ℚ}
    (hxy : x ≤ y) :
    (⌈(x + g.measured_jitter) / g.ti⌉ : ℤ) ≤ ⌈(y + g.measured_jitter) / g.ti⌉ :=
  Int.ceil_mono ((div_le_div_iff_of_pos_right hg).mpr (add_le_add_right hxy _))

/-- The ceiling profile is monotone in w. -/
lemma ha_ceil_sum_mono (f : RTAttributes) (F : List RTAttributes)
    (hti : ∀ g ∈ HolisticApproach.interfering_set f F, 0 < g.ti)
    {x y : ℚ} (hxy : x ≤ y) : ha_ceil_sum f F x ≤ ha_ceil_sum f F y :=
  List.sum_le_sum fun g hg => ha_ceil_term_mono (hti g hg) hxy

/-- The interference sum is monotone in w when periods are positive and
execution times nonnegative. -/
lemma ha_interference_mono (f : RTAttributes) (F : List RTAttributes)
    (hti : ∀ g ∈ HolisticApproach.interfering_set f F, 0 < g.ti)
    (hci : ∀ g ∈ HolisticApproach.interfering_set f F, 0 ≤ g.ci)
    {x y : ℚ} (hxy : x ≤ y) :
    HolisticApproach.interference_at f F x ≤
      HolisticApproach.interference_at f F y :=
  List.sum_le_sum fun g hg =>
    mul_le_mul_of_nonneg_right
      (Int.cast_le.mpr (ha_ceil_term_mono (hti g hg) hxy)) (hci g hg)

/-- The HA iteration map is monotone. -/
lemma ha_next_mono (f : RTAttributes) (F : List RTAttributes)
    (hti : ∀ g ∈ HolisticApproach.interfering_set f F, 0 < g.ti)
    (hci : ∀ g ∈ HolisticApproach.interfering_set f F, 0 ≤ g.ci)
    {x y : ℚ} (hxy : x ≤ y) :
    HolisticApproach.ha_next f F x ≤ HolisticApproach.ha_next f F y := by
  unfold HolisticApproach.ha_next
  have := ha_interference_mono f F hti hci hxy
  linarith

/-- At a nonnegative argument, with nonnegative jitters, the interference sum
is nonnegative. -/
lemma ha_interference_nonneg (f : RTAttributes) (F : List RTAttributes)
    (hti : ∀ g ∈ HolisticApproach.interfering_set f F, 0 < g.ti)
    (hci : ∀ g ∈ HolisticApproach.interfering_set f F, 0 ≤ g.ci)
    (hj : ∀ g ∈ HolisticApproach.interfering_set f F, 0 ≤ g.measured_jitter)
    {w : ℚ} (hw : 0 ≤ w) :
    0 ≤ HolisticApproach.interference_at f F w := by
  apply List.sum_nonneg
  intro x hx
  obtain ⟨g, hg, rfl⟩ := List.mem_map.mp hx
  apply mul_nonneg _ (hci g hg)
  have harg : (0 : ℚ) ≤ (w + g.measured_jitter) / g.ti :=
    div_nonneg (add_nonneg hw (hj g hg)) (le_of_lt (hti g hg))
  exact_mod_cast Int.ceil_nonneg harg

/-- A sum inequality against pointwise dominated terms forces pointwise
equality. -/
lemma sum_map_eq_of_le (u v : RTAttributes → ℤ) :
    ∀ l : List RTAttributes, (∀ x ∈ l, u x ≤ v x) →
      (l.map v).sum ≤ (l.map u).sum → ∀ x ∈ l, u x = v x := by
  intro l
  induction l with
  | nil => intro _ _ x hx; exact absurd hx (List.not_mem_nil x)
  | cons a l ih =>
    intro hle hs x hx
    have hrest : ∀ y ∈ l, u y ≤ v y :=
      fun y hy => hle y (List.mem_cons_of_mem a hy)
    have hsums : (l.map u).sum ≤ (l.map v).sum := List.sum_le_sum hrest
    have ha : u a ≤ v a := hle a (List.mem_cons_self a l)
    simp only [List.map_cons, List.sum_cons] at hs
    rcases List.mem_cons.mp hx with rfl | hx2
    · omega
    · exact ih hrest (by omega) x hx2

/-- If the ceiling profile does not move between two ordered arguments, the
interference sum does not move either. -/
lemma ha_interference_eq_of_ceil_sum_eq (f : RTAttributes)
    (F : List RTAttributes)
    (hti : ∀ g ∈ HolisticApproach.interfering_set f F, 0 < g.ti)
    {x y : ℚ} (hxy : x ≤ y)
    (hN : ha_ceil_sum f F y ≤ ha_ceil_sum f F x) :
    HolisticApproach.interference_at f F x =
      HolisticApproach.interference_at f F y := by
  have hpt := sum_map_eq_of_le
    (fun g => ⌈(x + g.measured_jitter) / g.ti⌉)
    (fun g => ⌈(y + g.measured_jitter) / g.ti⌉)
    (HolisticApproach.interfering_set f F)
    (fun g hg => ha_ceil_term_mono (hti g hg) hxy) hN
  unfold HolisticApproach.interference_at
  apply congrArg List.sum
  apply List.map_congr_left
  intro g hg
  have h := hpt g hg
  simp only at h
  rw [h]

/-- A loop round whose convergence test does not fire returns at once. -/
lemma ha_loop_converged (f : RTAttributes) (F : List RTAttributes) (n : Nat)
    (prev w : ℚ) (h : ¬ (|w - prev| > 1 / 1000)) :
    HolisticApproach.ha_loop f F (n + 1) prev w = some w := by
  unfold HolisticApproach.ha_loop
  rw [if_pos h]

/-- The loop terminates from any reachable state: prev nonnegative and below
its image, with fuel covering the remaining headroom of the ceiling
profile below its value at the deadline. -/
lemma ha_loop_terminates_aux (f : RTAttributes) (F : List RTAttributes)
    (hti : ∀ g ∈ HolisticApproach.interfering_set f F, 0 < g.ti)
    (hci : ∀ g ∈ HolisticApproach.interfering_set f F, 0 ≤ g.ci) :
    ∀ (m : Nat) (prev : ℚ), 0 ≤ prev →
      prev ≤ HolisticApproach.ha_next f F prev →
      (ha_ceil_sum f F f.di - ha_ceil_sum f F prev).toNat ≤ m →
      (HolisticApproach.ha_loop f F (m + 2) prev
        (HolisticApproach.ha_next f F prev)).isSome = true := by
  intro m
  induction m with
  | zero =>
    intro prev h0 hmono hB
    rw [show (0 : Nat) + 2 = 1 + 1 from rfl]
    unfold HolisticApproach.ha_loop
    by_cases h1 : ¬ (|HolisticApproach.ha_next f F prev - prev| > 1 / 1000)
    · rw [if_pos h1]; rfl
    · rw [if_neg h1]
      by_cases h2 : HolisticApproach.ha_next f F prev > f.di
      · rw [if_pos h2]; rfl
      · rw [if_neg h2]
        have hwle : HolisticApproach.ha_next f F prev ≤ f.di := not_lt.mp h2
        have hNle : ha_ceil_sum f F prev ≤
            ha_ceil_sum f F (HolisticApproach.ha_next f F prev) :=
          ha_ceil_sum_mono f F hti hmono
        have hNB : ha_ceil_sum f F (HolisticApproach.ha_next f F prev) ≤
            ha_ceil_sum f F f.di := ha_ceil_sum_mono f F hti hwle
        have hstall : ha_ceil_sum f F (HolisticApproach.ha_next f F prev) ≤
            ha_ceil_sum f F prev := by omega
        have hInt := ha_interference_eq_of_ceil_sum_eq f F hti hmono hstall
        have hww : HolisticApproach.ha_next f F
            (HolisticApproach.ha_next f F prev) =
            HolisticApproach.ha_next f F prev := by
          conv_rhs => rw [HolisticApproach.ha_next]
          rw [HolisticApproach.ha_next, hInt]
        rw [hww, ha_loop_converged f F 0 _ _ (by simp)]
        rfl
  | succ m ih =>
    intro prev h0 hmono hB
    rw [show m + 1 + 2 = (m + 2) + 1 from rfl]
    unfold HolisticApproach.ha_loop
    by_cases h1 : ¬ (|HolisticApproach.ha_next f F prev - prev| > 1 / 1000)
    · rw [if_pos h1]; rfl
    · rw [if_neg h1]
      by_cases h2 : HolisticApproach.ha_next f F prev > f.di
      · rw [if_pos h2]; rfl
      · rw [if_neg h2]
        have hwle : HolisticApproach.ha_next f F prev ≤ f.di := not_lt.mp h2
        have hw0 : 0 ≤ HolisticApproach.ha_next f F prev := le_trans h0 hmono
        have hmono2 : HolisticApproach.ha_next f F prev ≤
            HolisticApproach.ha_next f F (HolisticApproach.ha_next f F prev) :=
          ha_next_mono f F hti hci hmono
        have hNle : ha_ceil_sum f F prev ≤
            ha_ceil_sum f F (HolisticApproach.ha_next f F prev) :=
          ha_ceil_sum_mono f F hti hmono
        have hNB : ha_ceil_sum f F (HolisticApproach.ha_next f F prev) ≤
            ha_ceil_sum f F f.di := ha_ceil_sum_mono f F hti hwle
        by_cases hN : ha_ceil_sum f F (HolisticApproach.ha_next f F prev) ≤
            ha_ceil_sum f F prev
        · have hInt := ha_interference_eq_of_ceil_sum_eq f F hti hmono hN
          have hww : HolisticApproach.ha_next f F
              (HolisticApproach.ha_next f F prev) =
              HolisticApproach.ha_next f F prev := by
            conv_rhs => rw [HolisticApproach.ha_next]
            rw [HolisticApproach.ha_next, hInt]
          rw [hww, show m + 2 = (m + 1) + 1 from rfl,
            ha_loop_converged f F (m + 1) _ _ (by simp)]
          rfl
        · have hlt : ha_ceil_sum f F prev <
              ha_ceil_sum f F (HolisticApproach.ha_next f F prev) :=
            lt_of_not_le hN
          exact ih (HolisticApproach.ha_next f F prev) hw0 hmono2 (by omega)

/-- Claim C9 as amended: the Holistic Approach iteration terminates for every
flow with a finite deadline whose HA interferer set has ti > 0, ci >= 0 and
measured_jitter >= 0, provided the flow's own starting value static + ci and
its path jitter sum are nonnegative (as they are for physical link
attributes); it stops when successive iterates differ by at most 10^-3 ms, or
exits early as soon as an iterate exceeds di(f), returning the last computed
w, which may exceed the deadline.  Without the nonnegative-jitter condition
the loop can diverge, as the counterexample shows. -/
theorem C9_ha_terminates (f : RTAttributes) (F : List RTAttributes)
    (hti : ∀ g ∈ HolisticApproach.interfering_set f F, 0 < g.ti)
    (hci : ∀ g ∈ HolisticApproach.interfering_set f F, 0 ≤ g.ci)
    (hj : ∀ g ∈ HolisticApproach.interfering_set f F, 0 ≤ g.measured_jitter)
    (hw0 : 0 ≤ HolisticApproach.static_delay f + f.ci)
    (hjs : 0 ≤ HolisticApproach.path_jitter_sum f) :
    ∃ n, (HolisticApproach.calculate_wcrt f F n).isSome = true := by
  refine ⟨(ha_ceil_sum f F f.di -
    ha_ceil_sum f F (HolisticApproach.static_delay f + f.ci)).toNat + 3, ?_⟩
  unfold HolisticApproach.calculate_wcrt
  rw [show (ha_ceil_sum f F f.di -
      ha_ceil_sum f F (HolisticApproach.static_delay f + f.ci)).toNat + 3 =
      ((ha_ceil_sum f F f.di -
        ha_ceil_sum f F (HolisticApproach.static_delay f + f.ci)).toNat + 2) + 1
    from rfl]
  unfold HolisticApproach.ha_loop
  by_cases h1 : ¬ (|HolisticApproach.static_delay f + f.ci - 0| > 1 / 1000)
  · rw [if_pos h1]; rfl
  · rw [if_neg h1]
    by_cases h2 : HolisticApproach.static_delay f + f.ci > f.di
    · rw [if_pos h2]; rfl
    · rw [if_neg h2]
      apply ha_loop_terminates_aux f F hti hci _ _ hw0 _ (le_refl _)
      have hint : 0 ≤ HolisticApproach.interference_at f F
          (HolisticApproach.static_delay f + f.ci) :=
        ha_interference_nonneg f F hti hci hj hw0
      unfold HolisticApproach.ha_next
      linarith

/-- Witness for C9: the interference scenario flow B under interferer C
(ti = 20 > 0, ci = 1/2 >= 0, measured_jitter = 0) satisfies every hypothesis,
so its HA iteration terminates within some fuel. -/
theorem C9_witness :
    ∃ n, (HolisticApproach.calculate_wcrt fB [fB, fC] n).isSome = true := by
  have hset : HolisticApproach.interfering_set fB [fB, fC] = [fC] := by
    simp [HolisticApproach.interfering_set, sharesLink, fB, fC, K12, K24]
  apply C9_ha_terminates fB [fB, fC]
  · rw [hset]
    intro g hg
    rw [List.mem_singleton.mp hg]
    norm_num [fC]
  · rw [hset]
    intro g hg
    rw [List.mem_singleton.mp hg]
    norm_num [fC]
  · rw [hset]
    intro g hg
    rw [List.mem_singleton.mp hg]
    norm_num [fC]
  · norm_num [HolisticApproach.static_delay, Link.get_transmission_delay,
      fB, K12, K24]
  · norm_num [HolisticApproach.path_jitter_sum, fB, K12, K24]

end MRT
